import Mathlib

/-!
Shallow embedding of the `matrust` matrix library (`src/lib.rs`).

The Rust type `Matrix<A>` holds `rows`, `cols` and a row-major backing
vector `val` of length `rows * cols`.  We embed it as a structure with a
`List` backing store; fallible Rust methods returning
`Result<_, &'static str>` become `Except String _`, carrying the exact
error strings of the source.  Element reads `self.val[i]` (which panic
when out of bounds in Rust) are embedded as `List.getD _ default`; every
claim that depends on the values read is stated for well-formed matrices
(`Wf`, the invariant the Rust constructors enforce), under which every
read is in bounds and the default is never consulted.
-/

namespace Matrust

/-- The `Matrix<A>` struct of `src/lib.rs`: row-major storage. -/
structure Matrix (α : Type) where
  rows : Nat
  cols : Nat
  val : List α
deriving Repr, DecidableEq

/-- Invariant I1 of the data model: the backing storage has exactly
`rows * cols` elements.  Every Rust constructor establishes it and no
operation breaks it. -/
def Matrix.Wf {α : Type} (m : Matrix α) : Prop :=
  m.val.length = m.rows * m.cols

instance {α : Type} (m : Matrix α) : Decidable m.Wf := by
  unfold Matrix.Wf; infer_instance

/-- Rust `Matrix::new(rows, cols, val)`: fill with clones of one value. -/
def Matrix.new {α : Type} (rows cols : Nat) (v : α) : Matrix α :=
  { rows := rows, cols := cols, val := List.replicate (rows * cols) v }

/-- Rust `Matrix::new_with_val(rows, cols, val)`: validating constructor. -/
def Matrix.new_with_val {α : Type} (rows cols : Nat) (val : List α) :
    Except String (Matrix α) :=
  if val.length ≠ rows * cols then
    .error "Value length needs to equal rows * cols"
  else
    .ok { rows := rows, cols := cols, val := val }

/-- Rust `Matrix::index(row, col)`: bounds-checked element read. -/
def Matrix.index {α : Type} [Inhabited α] (m : Matrix α) (row col : Nat) :
    Except String α :=
  if row ≥ m.rows ∨ col ≥ m.cols then
    .error "Index out of range"
  else
    .ok (m.val.getD (row * m.cols + col) default)

/-- Rust `Matrix::insert(row, col, value)`: bounds-checked in-place write.
The Rust method mutates `&mut self` and returns `Result<(), _>`; we
embed it by explicit state passing, returning the result together with
the post state (unchanged on the error branch, as in Rust where the
check precedes the write). -/
def Matrix.insert {α : Type} (m : Matrix α) (row col : Nat) (v : α) :
    Except String Unit × Matrix α :=
  if row ≥ m.rows ∨ col ≥ m.cols then
    (.error "Index out of range", m)
  else
    (.ok (), { m with val := m.val.set (row * m.cols + col) v })

/-- Rust `Matrix::dimensions()`. -/
def Matrix.dimensions {α : Type} (m : Matrix α) : Nat × Nat :=
  (m.rows, m.cols)

/-- Rust `Matrix::map(f)`: elementwise map, same shape. -/
def Matrix.map {α β : Type} (m : Matrix α) (f : α → β) : Matrix β :=
  { rows := m.rows, cols := m.cols, val := m.val.map f }

/-- Rust `Matrix::map2(m, f)`: combine same-position elements of two
matrices of equal dimensions; the source iterates linear positions
`0 .. rows*cols` and reads `self.val[i]` and `m.val[i]`. -/
def Matrix.map2 {α β γ : Type} [Inhabited α] [Inhabited β]
    (a : Matrix α) (b : Matrix β) (f : α → β → γ) :
    Except String (Matrix γ) :=
  if a.dimensions ≠ b.dimensions then
    .error "Both matricies need to have same dimensions"
  else
    .ok { rows := a.rows, cols := a.cols,
          val := (List.range (a.rows * a.cols)).map
            (fun i => f (a.val.getD i default) (b.val.getD i default)) }

/-- The double push loop of `Matrix::transpose`: for `i` in `0..n`
(outer) and `j` in `0..L` (inner), push `g i j`. -/
def blockJoin {α : Type} (n L : Nat) (g : Nat → Nat → α) : List α :=
  (List.range n).flatMap (fun i => (List.range L).map (g i))

/-- Rust `Matrix::transpose()`: outer loop over columns `i`, inner loop over
rows `j`, pushing `self.val[j * self.cols + i]`; result is
`cols × rows`. -/
def Matrix.transpose {α : Type} [Inhabited α] (m : Matrix α) : Matrix α :=
  { rows := m.cols, cols := m.rows,
    val := blockJoin m.cols m.rows
      (fun i j => m.val.getD (j * m.cols + i) default) }

/-- Rust `Matrix::add` = `map2` with `+`. -/
def Matrix.add {α : Type} [Inhabited α] [Add α] (a b : Matrix α) :
    Except String (Matrix α) :=
  a.map2 b (fun x y => x + y)

/-- Rust `Matrix::sub` = `map2` with `-`. -/
def Matrix.sub {α : Type} [Inhabited α] [Sub α] (a b : Matrix α) :
    Except String (Matrix α) :=
  a.map2 b (fun x y => x - y)

/-- Rust `Matrix::scale` = `map` with `* n`. -/
def Matrix.scale {α : Type} [Mul α] (m : Matrix α) (n : α) : Matrix α :=
  m.map (fun x => x * n)

/-- Rust `Matrix::vec_mult(v)`: matrix-vector product.  The Rust sum
`(0..cols).map(...).sum()` is a left-to-right fold from the additive
identity. -/
def Matrix.vec_mult {α : Type} [Inhabited α] [Mul α] [Add α] [Zero α]
    (m : Matrix α) (v : List α) : Except String (List α) :=
  if v.length ≠ m.cols then
    .error "Vector length must equal matrix column length"
  else
    .ok ((List.range m.rows).map (fun i =>
      ((List.range m.cols).map
        (fun j => v.getD j default * m.val.getD (i * m.cols + j) default)).foldl
        (fun x y => x + y) 0))

/-- The pieces written by the `fmt::Display` impl, in writing order:
`[`, then for each row `i` each element followed by `", "` except the
last of the row, then `"; "` after each row except the last, then `]`.
The rendered string is their concatenation. -/
def Matrix.fmtPieces {α : Type} [Inhabited α] [ToString α] (m : Matrix α) :
    List String :=
  ["["] ++
  (List.range m.rows).flatMap (fun i =>
    (List.range m.cols).flatMap (fun j =>
      [toString (m.val.getD (i * m.cols + j) default)] ++
      (if j < m.cols - 1 then [", "] else [])) ++
    (if i < m.rows - 1 then ["; "] else [])) ++
  ["]"]

/-- The string produced by the `fmt::Display` impl. -/
def Matrix.format {α : Type} [Inhabited α] [ToString α] (m : Matrix α) :
    String :=
  String.join m.fmtPieces

/-- Spec-side separator join: elements separated by `s`, no leading or
trailing separator.  Used to state the display contract. -/
def sepBy (s : String) : List String → String
  | [] => ""
  | [x] => x
  | x :: y :: rest => x ++ s ++ sepBy s (y :: rest)

/-- Modelled from the spec: the contractually fixed rendering
`[a, b; c, d]` — rows semicolon-space separated, elements within a row
comma-space separated, the whole bracketed. -/
def Matrix.formatSpec {α : Type} [Inhabited α] [ToString α] (m : Matrix α) :
    String :=
  "[" ++
  sepBy "; " ((List.range m.rows).map (fun i =>
    sepBy ", " ((List.range m.cols).map (fun j =>
      toString (m.val.getD (i * m.cols + j) default))))) ++
  "]"

/-- A sequence of `insert` calls, applied in order to the state
(results discarded, as the post state is all that remains). -/
def Matrix.applyInserts {α : Type} : Matrix α → List (Nat × Nat × α) → Matrix α
  | m, [] => m
  | m, op :: ops => Matrix.applyInserts (m.insert op.1 op.2.1 op.2.2).2 ops

/-! ## Helper lemmas -/

lemma getD_range_map {α : Type} (g : Nat → α) {n i : Nat} (h : i < n)
    (d : α) : ((List.range n).map g).getD i d = g i := by
  rw [List.getD_eq_getElem?_getD, List.getElem?_map, List.getElem?_range h]
  rfl

lemma getD_of_lt {α : Type} (l : List α) {n : Nat} (d : α)
    (h : n < l.length) : l.getD n d = l[n] := by
  rw [List.getD_eq_getElem?_getD, List.getElem?_eq_getElem h]
  rfl

lemma blockJoin_succ {α : Type} (n L : Nat) (g : Nat → Nat → α) :
    blockJoin (n + 1) L g = blockJoin n L g ++ (List.range L).map (g n) := by
  unfold blockJoin
  rw [List.range_succ]
  simp

lemma blockJoin_length {α : Type} (n L : Nat) (g : Nat → Nat → α) :
    (blockJoin n L g).length = n * L := by
  induction n with
  | zero => simp [blockJoin]
  | succ n ih => rw [blockJoin_succ]; simp [ih, Nat.succ_mul]

lemma blockJoin_getD {α : Type} {n L i j : Nat} (g : Nat → Nat → α)
    (hi : i < n) (hj : j < L) (d : α) :
    (blockJoin n L g).getD (i * L + j) d = g i j := by
  induction n with
  | zero => omega
  | succ n ih =>
    rw [blockJoin_succ]
    rcases Nat.lt_or_ge i n with hin | hin
    · rw [List.getD_append]
      · exact ih hin
      · rw [blockJoin_length]
        have h1 : i * L + j < i * L + L := by omega
        have h2 : i * L + L = (i + 1) * L := by ring
        have h3 : (i + 1) * L ≤ n * L := Nat.mul_le_mul_right L (by omega)
        omega
    · have hi' : i = n := by omega
      subst hi'
      rw [List.getD_append_right]
      · rw [blockJoin_length]
        have : i * L + j - i * L = j := by omega
        rw [this]
        exact getD_range_map _ hj d
      · rw [blockJoin_length]; omega

lemma rowmajor_inj {cols r c r' c' : Nat}
    (hc : c < cols) (hc' : c' < cols)
    (h : r * cols + c = r' * cols + c') : r = r' ∧ c = c' := by
  have hcols : 0 < cols := by omega
  have h1 : (r * cols + c) % cols = c := by
    rw [Nat.add_comm, Nat.add_mul_mod_self_right, Nat.mod_eq_of_lt hc]
  have h2 : (r' * cols + c') % cols = c' := by
    rw [Nat.add_comm, Nat.add_mul_mod_self_right, Nat.mod_eq_of_lt hc']
  have hcc : c = c' := by rw [← h1, ← h2, h]
  subst hcc
  have : r * cols = r' * cols := by omega
  exact ⟨Nat.eq_of_mul_eq_mul_right hcols this, rfl⟩

lemma getD_set_ne {α : Type} (l : List α) {i k : Nat} (v : α) (d : α)
    (h : i ≠ k) : (l.set i v).getD k d = l.getD k d := by
  rw [List.getD_eq_getElem?_getD, List.getD_eq_getElem?_getD,
    List.getElem?_set_ne h]

lemma getD_set_self {α : Type} (l : List α) {i : Nat} (v : α) (d : α)
    (h : i < l.length) : (l.set i v).getD i d = v := by
  rw [List.getD_eq_getElem?_getD, List.getElem?_set_self]
  · rfl
  · exact h

lemma join_append (l1 l2 : List String) :
    String.join (l1 ++ l2) = String.join l1 ++ String.join l2 := by
  simp [String.join_eq, String.ext_iff]

lemma join_cons (s : String) (l : List String) :
    String.join (s :: l) = s ++ String.join l := by
  simp [String.join_eq, String.ext_iff]

lemma join_flatMap {α : Type} (l : List α) (f : α → List String) :
    String.join (l.flatMap f) =
      String.join (l.map (fun x => String.join (f x))) := by
  induction l with
  | nil => rfl
  | cons x l ih =>
    rw [List.flatMap_cons, join_append, List.map_cons, join_cons, ih]

lemma join_singleton (s : String) : String.join [s] = s := by
  rw [join_cons]
  exact String.append_empty s

lemma join_map_sep (s : String) (l : List String) (a : String) :
    String.join (l.map (fun x => x ++ s)) ++ a = sepBy s (l ++ [a]) := by
  induction l with
  | nil =>
    show String.join [] ++ a = sepBy s [a]
    rw [show String.join [] = "" from rfl, String.empty_append]
    rfl
  | cons x l ih =>
    rw [List.map_cons, join_cons, String.append_assoc]
    cases l with
    | nil =>
      show (x ++ s) ++ (String.join [] ++ a) = sepBy s [x, a]
      rw [show String.join [] = "" from rfl, String.empty_append]
      rfl
    | cons y l =>
      show (x ++ s) ++ _ = sepBy s (x :: y :: (l ++ [a]))
      rw [show sepBy s (x :: y :: (l ++ [a])) =
            x ++ s ++ sepBy s (y :: (l ++ [a])) from rfl]
      rw [← List.cons_append, ← ih, String.append_assoc]

lemma join_sep (s : String) (g : Nat → String) (n : Nat) :
    String.join ((List.range n).map
      (fun j => g j ++ if j < n - 1 then s else "")) =
      sepBy s ((List.range n).map g) := by
  cases n with
  | zero => rfl
  | succ n =>
    rw [List.range_succ, List.map_append, List.map_append, join_append]
    have hmid : (List.range n).map
        (fun j => g j ++ if j < (n + 1) - 1 then s else "") =
        ((List.range n).map g).map (fun x => x ++ s) := by
      rw [List.map_map]
      exact List.map_congr_left (fun j hj => by
        have : j < n := List.mem_range.mp hj
        simp [this])
    rw [hmid]
    have hlast : (List.map (fun j => g j ++ if j < (n + 1) - 1 then s else "")
        [n]) = [g n] := by
      simp
    rw [hlast, join_singleton, join_map_sep]
    rfl

lemma idx_lt {rows cols r c : Nat} (hr : r < rows) (hc : c < cols) :
    r * cols + c < rows * cols := by
  have h1 : (r + 1) * cols = r * cols + cols := Nat.succ_mul r cols
  have h2 : (r + 1) * cols ≤ rows * cols := Nat.mul_le_mul_right cols hr
  omega

lemma map2_error_iff {α β γ : Type} [Inhabited α] [Inhabited β]
    (a : Matrix α) (b : Matrix β) (f : α → β → γ) :
    a.map2 b f = .error "Both matricies need to have same dimensions" ↔
      a.dimensions ≠ b.dimensions := by
  unfold Matrix.map2
  split
  next h => simp [h]
  next h => simp [h]

lemma map2_ok_char {α β γ : Type} [Inhabited α] [Inhabited β]
    (a : Matrix α) (b : Matrix β) (f : α → β → γ)
    (hd : a.dimensions = b.dimensions) :
    ∃ c, a.map2 b f = .ok c ∧ c.rows = a.rows ∧ c.cols = a.cols
      ∧ c.val.length = a.rows * a.cols
      ∧ ∀ i, i < a.rows * a.cols → ∀ d : γ,
          c.val.getD i d = f (a.val.getD i default) (b.val.getD i default) := by
  unfold Matrix.map2
  rw [if_neg (not_not_intro hd)]
  refine ⟨_, rfl, rfl, rfl, by simp, ?_⟩
  intro i hi d
  exact getD_range_map _ hi d

/-! ## Claim theorems -/

/-- C1: `map2(other, f)` fails with the shape-mismatch error exactly when
`self.dimensions() != other.dimensions()`; when dimensions are equal it
succeeds and returns a matrix of the same rows and cols whose element at
every linear position `i` is `f(self.values[i], other.values[i])`. -/
theorem map2_spec {α β γ : Type} [Inhabited α] [Inhabited β]
    (a : Matrix α) (b : Matrix β) (f : α → β → γ) :
    (a.map2 b f = .error "Both matricies need to have same dimensions" ↔
      a.dimensions ≠ b.dimensions)
    ∧ (a.dimensions = b.dimensions →
        ∃ c, a.map2 b f = .ok c ∧ c.rows = a.rows ∧ c.cols = a.cols
          ∧ c.val.length = a.rows * a.cols
          ∧ ∀ i, i < a.rows * a.cols → ∀ d : γ,
              c.val.getD i d =
                f (a.val.getD i default) (b.val.getD i default)) :=
  ⟨map2_error_iff a b f, map2_ok_char a b f⟩

/-- Witness for C1 at two concrete `2×2` integer matrices combined
with addition. -/
theorem map2_spec_witness :
    (Matrix.mk 2 2 ([1, 2, 3, 4] : List Int)).dimensions =
        (Matrix.mk 2 2 ([5, 6, 7, 8] : List Int)).dimensions
    ∧ ∃ c, (Matrix.mk 2 2 ([1, 2, 3, 4] : List Int)).map2
          (Matrix.mk 2 2 ([5, 6, 7, 8] : List Int)) (fun x y => x + y) =
            .ok c
        ∧ c.rows = 2 ∧ c.cols = 2 ∧ c.val.length = 2 * 2
        ∧ ∀ i, i < 2 * 2 → ∀ d : Int,
            c.val.getD i d = ([1, 2, 3, 4] : List Int).getD i default +
              ([5, 6, 7, 8] : List Int).getD i default :=
  ⟨rfl, (map2_spec (Matrix.mk 2 2 ([1, 2, 3, 4] : List Int))
    (Matrix.mk 2 2 ([5, 6, 7, 8] : List Int)) (fun x y => x + y)).2 rfl⟩

/-- C4: `index(r, c)` fails with the index-out-of-range error exactly
when `r >= rows` or `c >= cols` (so `r == rows` / `c == cols` are always
rejected); otherwise it succeeds with the element stored at row-major
offset `r * cols + c`. -/
theorem index_spec {α : Type} [Inhabited α] (m : Matrix α) (r c : Nat) :
    (m.index r c = .error "Index out of range" ↔
      (r ≥ m.rows ∨ c ≥ m.cols))
    ∧ (∀ (h : r * m.cols + c < m.val.length), r < m.rows → c < m.cols →
        m.index r c = .ok (m.val.get ⟨r * m.cols + c, h⟩)) := by
  constructor
  · unfold Matrix.index
    split
    next h => simp [h]
    next h => simp [h]
  · intro h hr hc
    unfold Matrix.index
    rw [if_neg (by omega), getD_of_lt _ _ h]
    rfl

/-- Witness for C4 at a concrete `2×2` integer matrix: the in-bounds
read at `(0, 1)` succeeds, and `(2, 0)` (i.e. `r == rows`) is
rejected. -/
theorem index_spec_witness :
    (0 * 2 + 1 < ([1, 2, 3, 4] : List Int).length ∧ 0 < 2 ∧ 1 < 2)
    ∧ (Matrix.mk 2 2 ([1, 2, 3, 4] : List Int)).index 0 1 = .ok 2
    ∧ (Matrix.mk 2 2 ([1, 2, 3, 4] : List Int)).index 2 0 =
        .error "Index out of range" := by
  refine ⟨by decide, ?_, ?_⟩
  · have h := (index_spec (Matrix.mk 2 2 ([1, 2, 3, 4] : List Int)) 0 1).2
      (by decide) (by decide) (by decide)
    rw [h]
    rfl
  · exact (index_spec (Matrix.mk 2 2 ([1, 2, 3, 4] : List Int)) 2 0).1.mpr
      (by decide)

/-- C6: `new_with_val(rows, cols, values)` fails with the
dimension-mismatch error exactly when `values.length != rows * cols`;
on success the matrix round-trips: `index(r, c)` returns
`values[r * cols + c]` for every in-bounds `(r, c)`. -/
theorem new_with_val_spec {α : Type} [Inhabited α] (rows cols : Nat)
    (vals : List α) :
    (Matrix.new_with_val rows cols vals =
        .error "Value length needs to equal rows * cols" ↔
      vals.length ≠ rows * cols)
    ∧ (vals.length = rows * cols →
        ∃ m, Matrix.new_with_val rows cols vals = .ok m
          ∧ m.rows = rows ∧ m.cols = cols ∧ m.Wf
          ∧ ∀ r c, r < rows → c < cols →
              m.index r c = .ok (vals.getD (r * cols + c) default)) := by
  constructor
  · unfold Matrix.new_with_val
    split
    next h => simp [h]
    next h => simp [h]
  · intro hlen
    unfold Matrix.new_with_val
    rw [if_neg (not_not_intro hlen)]
    refine ⟨_, rfl, rfl, rfl, hlen, ?_⟩
    intro r c hr hc
    unfold Matrix.index
    rw [if_neg (by simp; omega)]

/-- Witness for C6: `with_values(3, 3, [single element])` fails, and a
`2×3` construction from six elements round-trips via `index`. -/
theorem new_with_val_spec_witness :
    (Matrix.new_with_val 3 3 ([1] : List Int) =
        .error "Value length needs to equal rows * cols")
    ∧ ([1, 2, 3, 4, 5, 6] : List Int).length = 2 * 3
    ∧ ∃ m, Matrix.new_with_val 2 3 ([1, 2, 3, 4, 5, 6] : List Int) = .ok m
        ∧ m.rows = 2 ∧ m.cols = 3 ∧ m.Wf
        ∧ ∀ r c, r < 2 → c < 3 →
            m.index r c =
              .ok (([1, 2, 3, 4, 5, 6] : List Int).getD (r * 3 + c) default) :=
  ⟨(new_with_val_spec 3 3 ([1] : List Int)).1.mpr (by decide), by decide,
    (new_with_val_spec 2 3 ([1, 2, 3, 4, 5, 6] : List Int)).2 (by decide)⟩

/-- C5: `add` is `map2` with `+` and `sub` is `map2` with `-`; both fail
with the shape-mismatch error exactly when `map2` does, and on success
addition is elementwise `a + b` and subtraction elementwise `a - b`
(receiver's element on the left). -/
theorem add_sub_spec {α : Type} [Inhabited α] [Add α] [Sub α]
    (a b : Matrix α) :
    a.add b = a.map2 b (fun x y => x + y)
    ∧ a.sub b = a.map2 b (fun x y => x - y)
    ∧ (a.add b = .error "Both matricies need to have same dimensions" ↔
        a.dimensions ≠ b.dimensions)
    ∧ (a.sub b = .error "Both matricies need to have same dimensions" ↔
        a.dimensions ≠ b.dimensions)
    ∧ (a.dimensions = b.dimensions →
        ∃ c, a.add b = .ok c ∧ c.rows = a.rows ∧ c.cols = a.cols
          ∧ ∀ i, i < a.rows * a.cols → ∀ d : α,
              c.val.getD i d = a.val.getD i default + b.val.getD i default)
    ∧ (a.dimensions = b.dimensions →
        ∃ c, a.sub b = .ok c ∧ c.rows = a.rows ∧ c.cols = a.cols
          ∧ ∀ i, i < a.rows * a.cols → ∀ d : α,
              c.val.getD i d =
                a.val.getD i default - b.val.getD i default) := by
  refine ⟨rfl, rfl, map2_error_iff a b _, map2_error_iff a b _, ?_, ?_⟩
  · intro hd
    obtain ⟨c, h1, h2, h3, _, h5⟩ := map2_ok_char a b (fun x y => x + y) hd
    exact ⟨c, h1, h2, h3, h5⟩
  · intro hd
    obtain ⟨c, h1, h2, h3, _, h5⟩ := map2_ok_char a b (fun x y => x - y) hd
    exact ⟨c, h1, h2, h3, h5⟩

/-- Witness for C5: a shape mismatch between a `2×2` and a `3×3` matrix
makes `add` fail, and a matching `2×2` addition succeeds elementwise. -/
theorem add_sub_spec_witness :
    ((Matrix.mk 2 2 ([1, 2, 3, 4] : List Int)).add
        (Matrix.mk 3 3 (List.replicate 9 (0 : Int))) =
          .error "Both matricies need to have same dimensions" ↔
      (Matrix.mk 2 2 ([1, 2, 3, 4] : List Int)).dimensions ≠
        (Matrix.mk 3 3 (List.replicate 9 (0 : Int))).dimensions)
    ∧ (Matrix.mk 2 2 ([1, 2, 3, 4] : List Int)).dimensions =
        (Matrix.mk 2 2 ([1, 2, 3, 4] : List Int)).dimensions
    ∧ ∃ c, (Matrix.mk 2 2 ([1, 2, 3, 4] : List Int)).add
          (Matrix.mk 2 2 ([1, 2, 3, 4] : List Int)) = .ok c
        ∧ c.rows = 2 ∧ c.cols = 2
        ∧ ∀ i, i < 2 * 2 → ∀ d : Int,
            c.val.getD i d = ([1, 2, 3, 4] : List Int).getD i default +
              ([1, 2, 3, 4] : List Int).getD i default :=
  ⟨(add_sub_spec (Matrix.mk 2 2 ([1, 2, 3, 4] : List Int))
      (Matrix.mk 3 3 (List.replicate 9 (0 : Int)))).2.2.1, rfl,
    (add_sub_spec (Matrix.mk 2 2 ([1, 2, 3, 4] : List Int))
      (Matrix.mk 2 2 ([1, 2, 3, 4] : List Int))).2.2.2.2.1 rfl⟩

/-- C2: `vec_mult(v)` fails with the dimension-mismatch error exactly
when `v.length != cols`; on success the output has length `rows` and its
entry `i` is the left-to-right sum over `j = 0..cols` of
`v[j] * self[i][j]`, vector element on the left. -/
theorem vec_mult_spec {α : Type} [Inhabited α] [Mul α] [Add α] [Zero α]
    (m : Matrix α) (v : List α) :
    (m.vec_mult v = .error "Vector length must equal matrix column length" ↔
      v.length ≠ m.cols)
    ∧ (v.length = m.cols →
        ∃ w, m.vec_mult v = .ok w ∧ w.length = m.rows
          ∧ ∀ i, i < m.rows → ∀ d : α,
              w.getD i d = ((List.range m.cols).map
                (fun j => v.getD j default *
                  m.val.getD (i * m.cols + j) default)).foldl
                  (fun x y => x + y) 0) := by
  constructor
  · unfold Matrix.vec_mult
    split
    next h => simp [h]
    next h => simp [h]
  · intro hv
    unfold Matrix.vec_mult
    rw [if_neg (not_not_intro hv)]
    refine ⟨_, rfl, by simp, ?_⟩
    intro i hi d
    exact getD_range_map _ hi d

/-- Witness for C2: the `3×4` matrix of threes times `[1, 2, 3, 4]`
gives rows of `30`, and a length-3 vector is rejected. -/
theorem vec_mult_spec_witness :
    (([1, 2, 3, 4] : List Int).length = (Matrix.new 3 4 (3 : Int)).cols)
    ∧ (∃ w, (Matrix.new 3 4 (3 : Int)).vec_mult [1, 2, 3, 4] = .ok w
        ∧ w.length = (Matrix.new 3 4 (3 : Int)).rows
        ∧ ∀ i, i < (Matrix.new 3 4 (3 : Int)).rows → ∀ d : Int,
            w.getD i d = ((List.range (Matrix.new 3 4 (3 : Int)).cols).map
              (fun j => ([1, 2, 3, 4] : List Int).getD j default *
                (Matrix.new 3 4 (3 : Int)).val.getD
                  (i * (Matrix.new 3 4 (3 : Int)).cols + j) default)).foldl
                (fun x y => x + y) 0)
    ∧ (Matrix.new 3 4 (3 : Int)).vec_mult [1, 2, 3] =
        .error "Vector length must equal matrix column length" :=
  ⟨rfl, (vec_mult_spec (Matrix.new 3 4 (3 : Int)) [1, 2, 3, 4]).2 rfl,
    (vec_mult_spec (Matrix.new 3 4 (3 : Int)) [1, 2, 3]).1.mpr (by decide)⟩

/-- C10: on a matrix with `cols == 0`, `vec_mult` applied to the empty
vector succeeds and returns a vector of length `rows` every entry of
which is the additive identity (the empty sum). -/
theorem vec_mult_zero_cols {α : Type} [Inhabited α] [Mul α] [Add α]
    [Zero α] (m : Matrix α) (hc : m.cols = 0) :
    ∃ w, m.vec_mult [] = .ok w ∧ w.length = m.rows ∧
      ∀ x ∈ w, x = 0 := by
  unfold Matrix.vec_mult
  rw [if_neg (by simp [hc])]
  refine ⟨_, rfl, by simp, ?_⟩
  intro x hx
  rw [List.mem_map] at hx
  obtain ⟨i, _, hix⟩ := hx
  rw [hc] at hix
  simpa using hix.symm

/-- Witness for C10 at a concrete `3×0` integer matrix. -/
theorem vec_mult_zero_cols_witness :
    (Matrix.new 3 0 (0 : Int)).cols = 0
    ∧ ∃ w, (Matrix.new 3 0 (0 : Int)).vec_mult [] = .ok w
        ∧ w.length = (Matrix.new 3 0 (0 : Int)).rows
        ∧ ∀ x ∈ w, x = 0 :=
  ⟨rfl, vec_mult_zero_cols (Matrix.new 3 0 (0 : Int)) rfl⟩

/-- C7: for in-bounds `(r, c)`, `insert(r, c, v)` succeeds and changes
only the element at `(r, c)`: `rows`, `cols` and every other in-bounds
position read back unchanged.  For out-of-bounds `(r, c)` it fails with
the index-out-of-range error and the matrix is entirely unchanged. -/
theorem insert_spec {α : Type} [Inhabited α] (m : Matrix α) (r c : Nat)
    (v : α) (hwf : m.Wf) :
    (r < m.rows → c < m.cols →
      (m.insert r c v).1 = .ok ()
      ∧ (m.insert r c v).2.rows = m.rows
      ∧ (m.insert r c v).2.cols = m.cols
      ∧ (m.insert r c v).2.index r c = .ok v
      ∧ ∀ r' c', r' < m.rows → c' < m.cols → (r', c') ≠ (r, c) →
          (m.insert r c v).2.index r' c' = m.index r' c')
    ∧ ((r ≥ m.rows ∨ c ≥ m.cols) →
        m.insert r c v = (.error "Index out of range", m)) := by
  constructor
  · intro hr hc
    unfold Matrix.insert
    rw [if_neg (by omega)]
    refine ⟨rfl, rfl, rfl, ?_, ?_⟩
    · unfold Matrix.index
      rw [if_neg (by simp; omega)]
      have hlt : r * m.cols + c < m.val.length := by
        rw [hwf]; exact idx_lt hr hc
      simp only []
      rw [getD_set_self _ _ _ hlt]
    · intro r' c' hr' hc' hne
      unfold Matrix.index
      rw [if_neg (by simp; omega), if_neg (by omega)]
      simp only []
      rw [getD_set_ne]
      intro heq
      obtain ⟨h1, h2⟩ := rowmajor_inj hc hc' heq
      exact hne (by rw [← h1, ← h2])
  · intro h
    unfold Matrix.insert
    rw [if_pos h]

/-- Witness for C7: `insert(0, 1, 42)` on a zero-filled `2×2` integer
matrix succeeds and reads back `42` at `(0, 1)`, and an out-of-bounds
insert at `(2, 0)` fails leaving the matrix unchanged. -/
theorem insert_spec_witness :
    ((Matrix.new 2 2 (0 : Int)).insert 0 1 42).1 = .ok ()
    ∧ ((Matrix.new 2 2 (0 : Int)).insert 0 1 42).2.index 0 1 = .ok 42
    ∧ ((Matrix.new 2 2 (0 : Int)).insert 0 1 42).2.index 0 0 =
        (Matrix.new 2 2 (0 : Int)).index 0 0
    ∧ (Matrix.new 2 2 (0 : Int)).insert 2 0 42 =
        (.error "Index out of range", Matrix.new 2 2 (0 : Int)) := by
  have h := insert_spec (Matrix.new 2 2 (0 : Int)) 0 1 42 rfl
  have h1 := h.1 (by decide) (by decide)
  have h2 := (insert_spec (Matrix.new 2 2 (0 : Int)) 2 0 42 rfl).2
    (by decide)
  exact ⟨h1.1, h1.2.2.2.1,
    h1.2.2.2.2 0 0 (by decide) (by decide) (by decide), h2⟩

lemma insert_fields {α : Type} (m : Matrix α) (r c : Nat) (v : α) :
    (m.insert r c v).2.rows = m.rows ∧ (m.insert r c v).2.cols = m.cols
    ∧ (m.insert r c v).2.val.length = m.val.length := by
  unfold Matrix.insert
  split <;> simp

lemma applyInserts_fields {α : Type} (ops : List (Nat × Nat × α))
    (m : Matrix α) :
    (m.applyInserts ops).rows = m.rows
    ∧ (m.applyInserts ops).cols = m.cols
    ∧ (m.applyInserts ops).val.length = m.val.length := by
  induction ops generalizing m with
  | nil => exact ⟨rfl, rfl, rfl⟩
  | cons op ops ih =>
    have h1 := insert_fields m op.1 op.2.1 op.2.2
    have h2 := ih (m.insert op.1 op.2.1 op.2.2).2
    unfold Matrix.applyInserts
    exact ⟨h2.1.trans h1.1, h2.2.1.trans h1.2.1, h2.2.2.trans h1.2.2⟩

lemma map2_ok_wf {α β γ : Type} [Inhabited α] [Inhabited β]
    (a : Matrix α) (b : Matrix β) (g : α → β → γ) (mc : Matrix γ)
    (h : a.map2 b g = .ok mc) : mc.Wf := by
  unfold Matrix.map2 at h
  split at h
  · cases h
  · cases h
    simp [Matrix.Wf]

/-- C8: every constructor and matrix-producing operation yields a
matrix whose backing length is `rows * cols` (invariant I1), the
invariant survives any sequence of `insert` calls, and `dimensions()`
returns exactly `(rows, cols)`. -/
theorem shape_invariant {α β γ : Type} [Inhabited α] [Inhabited β]
    [Add α] [Sub α] [Mul α] (rows cols : Nat) (v0 : α) (vals : List α)
    (m a : Matrix α) (b : Matrix β) (f : α → γ) (g : α → β → γ) (s : α)
    (ops : List (Nat × Nat × α)) :
    m.dimensions = (m.rows, m.cols)
    ∧ (Matrix.new rows cols v0).Wf
    ∧ (∀ mc, Matrix.new_with_val rows cols vals = .ok mc → mc.Wf)
    ∧ (m.Wf → (m.map f).Wf)
    ∧ (∀ mc, m.map2 b g = .ok mc → mc.Wf)
    ∧ m.transpose.Wf
    ∧ (∀ mc, m.add a = .ok mc → mc.Wf)
    ∧ (∀ mc, m.sub a = .ok mc → mc.Wf)
    ∧ (m.Wf → (m.scale s).Wf)
    ∧ (m.Wf → (m.applyInserts ops).Wf
        ∧ (m.applyInserts ops).rows = m.rows
        ∧ (m.applyInserts ops).cols = m.cols) := by
  refine ⟨rfl, ?_, ?_, ?_, map2_ok_wf m b g, ?_, map2_ok_wf m a _,
    map2_ok_wf m a _, ?_, ?_⟩
  · simp [Matrix.new, Matrix.Wf]
  · intro mc h
    unfold Matrix.new_with_val at h
    split at h
    · cases h
    next hlen =>
      cases h
      simpa [Matrix.Wf] using hlen
  · intro hwf
    simpa [Matrix.map, Matrix.Wf] using hwf
  · simp [Matrix.transpose, Matrix.Wf, blockJoin_length]
  · intro hwf
    simpa [Matrix.scale, Matrix.map, Matrix.Wf] using hwf
  · intro hwf
    have h := applyInserts_fields ops m
    refine ⟨?_, h.1, h.2.1⟩
    unfold Matrix.Wf
    rw [h.1, h.2.1, h.2.2, hwf]

/-- Witness for C8 at concrete integer matrices, discharging the
well-formedness hypotheses. -/
theorem shape_invariant_witness :
    ((Matrix.mk 2 2 ([1, 2, 3, 4] : List Int)).map (fun x => x * 2)).Wf
    ∧ ((Matrix.mk 2 2 ([1, 2, 3, 4] : List Int)).applyInserts
        [(0, 1, 42)]).Wf
    ∧ ((Matrix.mk 2 2 ([1, 2, 3, 4] : List Int)).scale 2).Wf
    ∧ (Matrix.new 2 3 (0 : Int)).Wf
    ∧ (Matrix.mk 2 2 ([1, 2, 3, 4] : List Int)).transpose.Wf := by
  have h := shape_invariant 2 3 (0 : Int) [1, 2, 3, 4, 5, 6]
    (Matrix.mk 2 2 ([1, 2, 3, 4] : List Int))
    (Matrix.mk 2 2 ([1, 2, 3, 4] : List Int))
    (Matrix.mk 2 2 ([5, 6, 7, 8] : List Int))
    (fun x => x * 2) (fun x y => x + y) 2 [(0, 1, 42)]
  exact ⟨h.2.2.2.1 rfl, (h.2.2.2.2.2.2.2.2.2 rfl).1,
    h.2.2.2.2.2.2.2.2.1 rfl, h.2.1, h.2.2.2.2.2.1⟩

/-- C3: `transpose()` always returns a `cols × rows` matrix whose
element at `(i, j)` is the input's element at `(j, i)`, and transposing
twice gives back the original matrix. -/
theorem transpose_spec {α : Type} [Inhabited α] (m : Matrix α) :
    m.transpose.rows = m.cols
    ∧ m.transpose.cols = m.rows
    ∧ (∀ i j, i < m.cols → j < m.rows →
        m.transpose.index i j = m.index j i)
    ∧ (m.Wf → m.transpose.transpose = m) := by
  refine ⟨rfl, rfl, ?_, ?_⟩
  · intro i j hi hj
    unfold Matrix.index Matrix.transpose
    rw [if_neg (by simp; omega), if_neg (by omega)]
    simp only []
    rw [blockJoin_getD _ hi hj]
  · intro hwf
    obtain ⟨rows, cols, val⟩ := m
    unfold Matrix.Wf at hwf
    simp only [] at hwf
    unfold Matrix.transpose
    simp only []
    congr 1
    have hlen : (blockJoin rows cols
        (fun i j => (blockJoin cols rows
          (fun i j => val.getD (j * cols + i) default)).getD
            (j * rows + i) default)).length = rows * cols :=
      blockJoin_length rows cols _
    apply List.ext_getElem (by rw [hlen, hwf])
    intro k hk1 hk2
    rw [hlen] at hk1
    have hcols : 0 < cols := by
      rcases Nat.eq_zero_or_pos cols with h | h
      · rw [h] at hk1; omega
      · exact h
    have hj : k % cols < cols := Nat.mod_lt _ hcols
    have hi : k / cols < rows := by
      apply Nat.div_lt_of_lt_mul
      rw [Nat.mul_comm]
      exact hk1
    have hdecomp : k / cols * cols + k % cols = k := by
      rw [Nat.mul_comm]
      exact Nat.div_add_mod k cols
    have hk1' : k < (blockJoin rows cols
        (fun i j => (blockJoin cols rows
          (fun i j => val.getD (j * cols + i) default)).getD
            (j * rows + i) default)).length := by rw [hlen]; exact hk1
    rw [← getD_of_lt _ default hk1', ← getD_of_lt _ default hk2]
    conv_lhs => rw [← hdecomp]
    rw [blockJoin_getD _ hi hj, blockJoin_getD _ hj hi, hdecomp]

/-- Witness for C3: double transpose of a concrete `2×3` integer
matrix, whose well-formedness is discharged concretely. -/
theorem transpose_spec_witness :
    (Matrix.mk 2 3 ([1, 2, 3, 4, 5, 6] : List Int)).Wf
    ∧ (Matrix.mk 2 3 ([1, 2, 3, 4, 5, 6] : List Int)).transpose.rows = 3
    ∧ (Matrix.mk 2 3 ([1, 2, 3, 4, 5, 6] : List Int)).transpose.index 0 1 =
        (Matrix.mk 2 3 ([1, 2, 3, 4, 5, 6] : List Int)).index 1 0
    ∧ (Matrix.mk 2 3
        ([1, 2, 3, 4, 5, 6] : List Int)).transpose.transpose =
          Matrix.mk 2 3 ([1, 2, 3, 4, 5, 6] : List Int) := by
  have h := transpose_spec (Matrix.mk 2 3 ([1, 2, 3, 4, 5, 6] : List Int))
  exact ⟨rfl, h.1, h.2.2.1 0 1 (by decide) (by decide), h.2.2.2 rfl⟩

lemma join_if (c : Prop) [Decidable c] (s : String) :
    String.join (if c then [s] else []) = if c then s else "" := by
  split
  · exact join_singleton s
  · rfl

/-- C9: the rendered string is exactly the `[a, b; c, d]` format: an
opening bracket, elements within a row separated by comma-space, rows
separated by semicolon-space, a closing bracket, with no trailing
separators. -/
theorem format_eq_formatSpec {α : Type} [Inhabited α] [ToString α]
    (m : Matrix α) : m.format = m.formatSpec := by
  unfold Matrix.format Matrix.fmtPieces Matrix.formatSpec
  simp only [join_append, join_singleton, join_flatMap, join_if]
  simp only [join_sep]

/-- Witness for C9: the rendering of a concrete `2×2` integer matrix is
`[1, 2; 3, 4]`, in both the code's and the spec's formulation. -/
theorem format_eq_formatSpec_witness :
    (Matrix.mk 2 2 ([1, 2, 3, 4] : List Int)).format = "[1, 2; 3, 4]"
    ∧ (Matrix.mk 2 2 ([1, 2, 3, 4] : List Int)).formatSpec =
        "[1, 2; 3, 4]" := by
  have h := format_eq_formatSpec (Matrix.mk 2 2 ([1, 2, 3, 4] : List Int))
  refine ⟨?_, ?_⟩
  · rw [h]
    rfl
  · rfl

end Matrust
